import Mathlib

/-!
# go-blosc: shallow embedding and verification

A shallow embedding of the go-blosc library (pure-Go Blosc v2
compressor/decompressor) together with proofs of its specified
properties.

Byte buffers are modelled as `List Nat`, where each entry stands for one
`byte` of the Go slice (the invariant "each entry `< 256`" is carried as
an explicit hypothesis where a property depends on it).  Go `uint32`
arithmetic is modelled as `Nat` arithmetic with explicit `% 2^32`
reduction at the points where the Go source performs a `uint32`
conversion.

The shuffle engine is embedded from the scalar ("generic") algorithm:
in the build modelled here (`shuffle_generic.go`), `useAVX2` and
`useNEON` are the constant `false`, so the SIMD branches of
`shuffleBytes` / `unshuffleBytes` / `bitShuffle` / `bitUnshuffle` are
unreachable and the generic loops below are the executed code.

In-place array writes (`dst[i] = v`) are modelled by explicit state
passing: each loop nest becomes a `List.foldl` over `List.range`,
threading the destination buffer through `List.set`.
-/

namespace Blosc

/-! ## Loop-write infrastructure

`foldWrites m p v d` executes `for t := 0; t < m; t++ { d[p t] = v t }`.
`nestWrites` and `nest3Writes` are the two- and three-deep loop nests of
the same shape.  `copyRange src d a b` executes `copy(d[a:b], src[a:b])`.
-/

def foldWrites (m : Nat) (p v : Nat → Nat) (d : List Nat) : List Nat :=
  (List.range m).foldl (fun d t => d.set (p t) (v t)) d

def nestWrites (m inner : Nat) (p v : Nat → Nat → Nat) (d : List Nat) : List Nat :=
  (List.range m).foldl (fun d i => foldWrites inner (p i) (v i) d) d

def nest3Writes (m outer inner : Nat) (p v : Nat → Nat → Nat → Nat) (d : List Nat) : List Nat :=
  (List.range m).foldl (fun d g => nestWrites outer inner (p g) (v g) d) d

def copyRange (src : List Nat) (d : List Nat) (start stop : Nat) : List Nat :=
  foldWrites (stop - start) (fun t => start + t) (fun t => src.getD (start + t) 0) d

theorem getD_set_self (l : List Nat) (i v : Nat) (h : i < l.length) :
    (l.set i v).getD i 0 = v := by
  rw [List.getD_eq_getElem _ _ (by simpa using h)]
  exact List.getElem_set_self _

theorem getD_set_ne (l : List Nat) (i k v : Nat) (h : i ≠ k) :
    (l.set i v).getD k 0 = l.getD k 0 := by
  simp [List.getD, List.getElem?_set_ne h]

theorem length_foldWrites (m : Nat) (p v : Nat → Nat) (d : List Nat) :
    (foldWrites m p v d).length = d.length := by
  induction m generalizing d with
  | zero => rfl
  | succ m ih =>
    unfold foldWrites
    rw [List.range_succ, List.foldl_append]
    simpa [foldWrites] using ih d

theorem foldWrites_succ (m : Nat) (p v : Nat → Nat) (d : List Nat) :
    foldWrites (m + 1) p v d = (foldWrites m p v d).set (p m) (v m) := by
  unfold foldWrites
  rw [List.range_succ, List.foldl_append]
  rfl

theorem foldWrites_getD_miss (m : Nat) (p v : Nat → Nat) (d : List Nat) (k : Nat)
    (h : ∀ t, t < m → p t ≠ k) :
    (foldWrites m p v d).getD k 0 = d.getD k 0 := by
  induction m with
  | zero => rfl
  | succ m ih =>
    rw [foldWrites_succ, getD_set_ne _ _ _ _ (h m (by omega))]
    exact ih (fun t ht => h t (by omega))

theorem foldWrites_getD_hit (m : Nat) (p v : Nat → Nat) (d : List Nat) (k t0 : Nat)
    (ht0 : t0 < m) (hp : p t0 = k)
    (huniq : ∀ t, t < m → p t = k → t = t0)
    (hk : k < d.length) :
    (foldWrites m p v d).getD k 0 = v t0 := by
  induction m with
  | zero => omega
  | succ m ih =>
    rw [foldWrites_succ]
    by_cases hlast : t0 = m
    · subst hlast
      rw [hp, getD_set_self]
      rw [length_foldWrites]
      exact hk
    · have ht0' : t0 < m := by omega
      have hne : p m ≠ k := fun hc => hlast ((huniq m (by omega) hc).symm ▸ rfl)
      rw [getD_set_ne _ _ _ _ hne]
      exact ih ht0' (fun t ht hpt => huniq t (by omega) hpt)

theorem length_nestWrites (m inner : Nat) (p v : Nat → Nat → Nat) (d : List Nat) :
    (nestWrites m inner p v d).length = d.length := by
  induction m generalizing d with
  | zero => rfl
  | succ m ih =>
    unfold nestWrites
    rw [List.range_succ, List.foldl_append]
    simp only [List.foldl_cons, List.foldl_nil]
    rw [length_foldWrites]
    simpa [nestWrites] using ih d

theorem nestWrites_succ (m inner : Nat) (p v : Nat → Nat → Nat) (d : List Nat) :
    nestWrites (m + 1) inner p v d = foldWrites inner (p m) (v m) (nestWrites m inner p v d) := by
  unfold nestWrites
  rw [List.range_succ, List.foldl_append]
  rfl

theorem nestWrites_getD_miss (m inner : Nat) (p v : Nat → Nat → Nat) (d : List Nat) (k : Nat)
    (h : ∀ i j, i < m → j < inner → p i j ≠ k) :
    (nestWrites m inner p v d).getD k 0 = d.getD k 0 := by
  induction m with
  | zero => rfl
  | succ m ih =>
    rw [nestWrites_succ]
    rw [foldWrites_getD_miss _ _ _ _ _ (fun j hj => h m j (by omega) hj)]
    exact ih (fun i j hi hj => h i j (by omega) hj)

theorem nestWrites_getD_hit (m inner : Nat) (p v : Nat → Nat → Nat) (d : List Nat)
    (k i0 j0 : Nat) (hi0 : i0 < m) (hj0 : j0 < inner) (hp : p i0 j0 = k)
    (huniq : ∀ i j, i < m → j < inner → p i j = k → i = i0 ∧ j = j0)
    (hk : k < d.length) :
    (nestWrites m inner p v d).getD k 0 = v i0 j0 := by
  induction m with
  | zero => omega
  | succ m ih =>
    rw [nestWrites_succ]
    by_cases hlast : i0 = m
    · subst hlast
      refine foldWrites_getD_hit _ _ _ _ _ j0 hj0 hp ?_ ?_
      · intro j hj hpj
        exact (huniq i0 j (by omega) hj hpj).2
      · rw [length_nestWrites]; exact hk
    · have hmiss : ∀ j, j < inner → p m j ≠ k := by
        intro j hj hc
        exact hlast ((huniq m j (by omega) hj hc).1.symm ▸ rfl)
      rw [foldWrites_getD_miss _ _ _ _ _ hmiss]
      exact ih (by omega) (fun i j hi hj hpij => huniq i j (by omega) hj hpij)

theorem length_nest3Writes (m outer inner : Nat) (p v : Nat → Nat → Nat → Nat) (d : List Nat) :
    (nest3Writes m outer inner p v d).length = d.length := by
  induction m generalizing d with
  | zero => rfl
  | succ m ih =>
    unfold nest3Writes
    rw [List.range_succ, List.foldl_append]
    simp only [List.foldl_cons, List.foldl_nil]
    rw [length_nestWrites]
    simpa [nest3Writes] using ih d

theorem nest3Writes_succ (m outer inner : Nat) (p v : Nat → Nat → Nat → Nat) (d : List Nat) :
    nest3Writes (m + 1) outer inner p v d =
      nestWrites outer inner (p m) (v m) (nest3Writes m outer inner p v d) := by
  unfold nest3Writes
  rw [List.range_succ, List.foldl_append]
  rfl

theorem nest3Writes_getD_miss (m outer inner : Nat) (p v : Nat → Nat → Nat → Nat)
    (d : List Nat) (k : Nat)
    (h : ∀ g i j, g < m → i < outer → j < inner → p g i j ≠ k) :
    (nest3Writes m outer inner p v d).getD k 0 = d.getD k 0 := by
  induction m with
  | zero => rfl
  | succ m ih =>
    rw [nest3Writes_succ]
    rw [nestWrites_getD_miss _ _ _ _ _ _ (fun i j hi hj => h m i j (by omega) hi hj)]
    exact ih (fun g i j hg hi hj => h g i j (by omega) hi hj)

theorem nest3Writes_getD_hit (m outer inner : Nat) (p v : Nat → Nat → Nat → Nat)
    (d : List Nat) (k g0 i0 j0 : Nat)
    (hg0 : g0 < m) (hi0 : i0 < outer) (hj0 : j0 < inner) (hp : p g0 i0 j0 = k)
    (huniq : ∀ g i j, g < m → i < outer → j < inner → p g i j = k → g = g0 ∧ i = i0 ∧ j = j0)
    (hk : k < d.length) :
    (nest3Writes m outer inner p v d).getD k 0 = v g0 i0 j0 := by
  induction m with
  | zero => omega
  | succ m ih =>
    rw [nest3Writes_succ]
    by_cases hlast : g0 = m
    · subst hlast
      refine nestWrites_getD_hit _ _ _ _ _ _ i0 j0 hi0 hj0 hp ?_ ?_
      · intro i j hi hj hpij
        exact (huniq g0 i j (by omega) hi hj hpij).2
      · rw [length_nest3Writes]; exact hk
    · have hmiss : ∀ i j, i < outer → j < inner → p m i j ≠ k := by
        intro i j hi hj hc
        exact hlast ((huniq m i j (by omega) hi hj hc).1.symm ▸ rfl)
      rw [nestWrites_getD_miss _ _ _ _ _ _ hmiss]
      exact ih (by omega) (fun g i j hg hi hj hpg => huniq g i j (by omega) hi hj hpg)

theorem length_copyRange (src d : List Nat) (a b : Nat) :
    (copyRange src d a b).length = d.length :=
  length_foldWrites ..

theorem copyRange_getD_miss (src d : List Nat) (a b k : Nat) (h : k < a ∨ b ≤ k) :
    (copyRange src d a b).getD k 0 = d.getD k 0 := by
  refine foldWrites_getD_miss _ _ _ _ _ ?_
  intro t ht
  omega

theorem copyRange_getD_hit (src d : List Nat) (a b k : Nat)
    (h1 : a ≤ k) (h2 : k < b) (hk : k < d.length) :
    (copyRange src d a b).getD k 0 = src.getD k 0 := by
  have := foldWrites_getD_hit (b - a) (fun t => a + t) (fun t => src.getD (a + t) 0) d k
    (k - a) (by omega) (by show a + (k - a) = k; omega)
    (by intro t ht hp; have h' : a + t = k := hp; omega) hk
  rw [copyRange, this]
  show src.getD (a + (k - a)) 0 = src.getD k 0
  rw [show a + (k - a) = k by omega]

/-! ## Pointwise list equality and Euclidean decomposition helpers -/

theorem getD_default (l : List Nat) (k : Nat) (h : l.length ≤ k) : l.getD k 0 = 0 := by
  simp [List.getD, List.getElem?_eq_none h]

theorem getD_mem (l : List Nat) (k : Nat) (h : k < l.length) : l.getD k 0 ∈ l := by
  rw [List.getD_eq_getElem _ _ h]
  exact List.getElem_mem h

theorem ext_getD (l1 l2 : List Nat) (hlen : l1.length = l2.length)
    (h : ∀ k, k < l1.length → l1.getD k 0 = l2.getD k 0) : l1 = l2 := by
  refine List.ext_getElem hlen ?_
  intro i h1 h2
  have := h i h1
  rwa [List.getD_eq_getElem _ _ h1, List.getD_eq_getElem _ _ h2] at this

theorem getD_append_left (l1 l2 : List Nat) (k : Nat) (h : k < l1.length) :
    (l1 ++ l2).getD k 0 = l1.getD k 0 := by
  simp [List.getD, List.getElem?_append_left h]

theorem div_mul_add_eq (B g r : Nat) (hB : 0 < B) (hr : r < B) : (g * B + r) / B = g := by
  rw [mul_comm, Nat.mul_add_div hB, Nat.div_eq_of_lt hr]
  omega

theorem mod_mul_add_eq (B g r : Nat) (hB : 0 < B) (hr : r < B) : (g * B + r) % B = r := by
  rw [mul_comm, Nat.mul_add_mod, Nat.mod_eq_of_lt hr]

theorem euclid_unique (B g1 r1 g2 r2 : Nat) (hB : 0 < B) (h1 : r1 < B) (h2 : r2 < B)
    (h : g1 * B + r1 = g2 * B + r2) : g1 = g2 ∧ r1 = r2 := by
  have e1 : g1 = (g1 * B + r1) / B := (div_mul_add_eq B g1 r1 hB h1).symm
  have e2 : g2 = (g2 * B + r2) / B := (div_mul_add_eq B g2 r2 hB h2).symm
  have hg : g1 = g2 := by rw [e1, e2, h]
  constructor
  · exact hg
  · subst hg; omega

/-! ## Byte-level (8×8 bit transpose) helpers -/

theorem orFold_testBit (f : Nat → Prop) [DecidablePred f] (m : Nat) (hm : m ≤ 8)
    (acc : Nat) (k : Nat) (hk : k < 8) :
    Nat.testBit ((List.range m).foldl
        (fun a i => if f i then a ||| (1 <<< (7 - i)) else a) acc) (7 - k) =
      (Nat.testBit acc (7 - k) || (decide (k < m) && decide (f k))) := by
  induction m with
  | zero => simp
  | succ m ih =>
    rw [List.range_succ, List.foldl_append]
    simp only [List.foldl_cons, List.foldl_nil]
    by_cases hf : f m
    · rw [if_pos hf]
      rw [Nat.testBit_or]
      rw [show (1 <<< (7 - m) : Nat) = 2 ^ (7 - m) by rw [Nat.shiftLeft_eq, one_mul]]
      rw [Nat.testBit_two_pow]
      by_cases hkm : k = m
      · subst hkm
        simp [hf, ih (by omega)]
      · have hne : ¬ (7 - m = 7 - k) := by omega
        have e1 : decide (k < m + 1) = decide (k < m) := by
          have : k < m + 1 ↔ k < m := by omega
          simp [this]
        rw [ih (by omega), e1]
        simp [hne]
    · rw [if_neg hf]
      rw [ih (by omega)]
      by_cases hkm : k = m
      · subst hkm
        simp [hf]
      · have e1 : decide (k < m + 1) = decide (k < m) := by
          have : k < m + 1 ↔ k < m := by omega
          simp [this]
        rw [e1]

theorem orFold_lt (f : Nat → Prop) [DecidablePred f] (m : Nat) (hm : m ≤ 8)
    (acc : Nat) (hacc : acc < 256) :
    ((List.range m).foldl (fun a i => if f i then a ||| (1 <<< (7 - i)) else a) acc) < 256 := by
  induction m with
  | zero => simpa
  | succ m ih =>
    rw [List.range_succ, List.foldl_append]
    simp only [List.foldl_cons, List.foldl_nil]
    by_cases hf : f m
    · rw [if_pos hf]
      have h1 : ((List.range m).foldl
          (fun a i => if f i then a ||| (1 <<< (7 - i)) else a) acc) < 2 ^ 8 := ih (by omega)
      have h2 : (1 <<< (7 - m) : Nat) < 2 ^ 8 := by
        rw [Nat.shiftLeft_eq, one_mul]
        exact Nat.pow_lt_pow_right (by norm_num) (by omega)
      exact Nat.or_lt_two_pow h1 h2
    · rw [if_neg hf]
      exact ih (by omega)

theorem and_two_pow_ne_zero_iff (x j : Nat) : x &&& 2 ^ j ≠ 0 ↔ Nat.testBit x j = true := by
  rw [Nat.and_two_pow]
  rcases h : Nat.testBit x j <;> simp [h]

theorem byte_ext (a b : Nat) (h1 : a < 256) (h2 : b < 256)
    (h : ∀ k, k < 8 → a.testBit (7 - k) = b.testBit (7 - k)) : a = b := by
  apply Nat.eq_of_testBit_eq
  intro i
  by_cases hi : i < 8
  · have := h (7 - i) (by omega)
    have e : 7 - (7 - i) = i := by omega
    rwa [e] at this
  · have hle : (256 : Nat) ≤ 2 ^ i := by
      calc (256 : Nat) = 2 ^ 8 := by norm_num
        _ ≤ 2 ^ i := Nat.pow_le_pow_right (by norm_num) (by omega)
    rw [Nat.testBit_lt_two_pow (by omega), Nat.testBit_lt_two_pow (by omega)]

/-! ## Shuffle engine (embedding of the scalar algorithms in the shuffle file)

`useAVX2` and `useNEON` are constant `false` in the generic build
(`shuffle_generic.go`), so the SIMD branches of the four transform
functions never execute; the loops below are the executed scalar code.
-/

/-- `useAVX2` from `shuffle_generic.go`: always false on platforms without SIMD. -/
def useAVX2 : Bool := false

/-- `useNEON` from `shuffle_generic.go`: always false on platforms without SIMD. -/
def useNEON : Bool := false

/-- `shuffleBytes(src, typeSize)`: byte-level shuffle.  Generic path:
`for i < numElements { for j < typeSize { dst[j*numElements+i] = src[i*typeSize+j] } }`
followed by `copy(dst[numElements*typeSize:], src[numElements*typeSize:])`
when `n % typeSize > 0`. -/
def shuffleBytes (src : List Nat) (typeSize : Nat) : List Nat :=
  if typeSize ≤ 1 ∨ src.length < typeSize then src
  else
    let n := src.length
    let numElements := n / typeSize
    let dst := nestWrites numElements typeSize
      (fun i j => j * numElements + i)
      (fun i j => src.getD (i * typeSize + j) 0)
      (List.replicate n 0)
    if n % typeSize > 0 then copyRange src dst (numElements * typeSize) n else dst

/-- `unshuffleBytes(src, typeSize)`: inverse byte shuffle.  Generic path:
`for i < numElements { for j < typeSize { dst[i*typeSize+j] = src[j*numElements+i] } }`
followed by the same remainder copy. -/
def unshuffleBytes (src : List Nat) (typeSize : Nat) : List Nat :=
  if typeSize ≤ 1 ∨ src.length < typeSize then src
  else
    let n := src.length
    let numElements := n / typeSize
    let dst := nestWrites numElements typeSize
      (fun i j => i * typeSize + j)
      (fun i j => src.getD (j * numElements + i) 0)
      (List.replicate n 0)
    if n % typeSize > 0 then copyRange src dst (numElements * typeSize) n else dst

/-- The inner byte of `bitShuffle`'s transpose: gathers
`bytes[elem] = src[baseIn+elem*typeSize+byteIdx]` and computes
`outByte`, where `outByte |= 1 << (7-inByte)` whenever
`bytes[inByte] & (1 << (7-outBit)) != 0`. -/
def transposeByte (src : List Nat) (baseIn typeSize byteIdx outBit : Nat) : Nat :=
  (List.range 8).foldl
    (fun outByte inByte =>
      if src.getD (baseIn + inByte * typeSize + byteIdx) 0 &&& (1 <<< (7 - outBit)) ≠ 0
      then outByte ||| (1 <<< (7 - inByte)) else outByte) 0

/-- The inner byte of `bitUnshuffle`'s reverse transpose: gathers
`bytes[i] = src[baseIn+byteIdx*8+i]` and computes `outByte`, where
`outByte |= 1 << (7-inBit)` whenever `bytes[inBit] & (1 << (7-outElem)) != 0`. -/
def untransposeByte (src : List Nat) (baseIn typeSize byteIdx outElem : Nat) : Nat :=
  (List.range 8).foldl
    (fun outByte inBit =>
      if src.getD (baseIn + byteIdx * 8 + inBit) 0 &&& (1 <<< (7 - outElem)) ≠ 0
      then outByte ||| (1 <<< (7 - inBit)) else outByte) 0

/-- `bitShuffle(src, typeSize)`: bit-level shuffle.  Scalar path: for each
group `g` of 8 elements and each `byteIdx < typeSize`, the 8 bytes at that
byte position are bit-transposed into `dst[g*8*typeSize+byteIdx*8 ..]`;
elements that do not fill a complete group of 8, and trailing remainder
bytes, are copied through unchanged. -/
def bitShuffle (src : List Nat) (typeSize : Nat) : List Nat :=
  if typeSize ≤ 1 ∨ src.length < typeSize then src
  else
    let n := src.length
    let numElements := n / typeSize
    let numGroups := numElements / 8
    let dst := nest3Writes numGroups typeSize 8
      (fun g byteIdx outBit => g * 8 * typeSize + byteIdx * 8 + outBit)
      (fun g byteIdx outBit => transposeByte src (g * 8 * typeSize) typeSize byteIdx outBit)
      (List.replicate n 0)
    let dst := if numElements % 8 > 0 then
        copyRange src dst (numGroups * 8 * typeSize) (numElements * typeSize) else dst
    if n % typeSize > 0 then copyRange src dst (numElements * typeSize) n else dst

/-- `bitUnshuffle(src, typeSize)`: inverse bit shuffle.  Scalar path: for
each group `g` and `byteIdx < typeSize`, gathers the 8 shuffled bytes at
`src[g*8*typeSize+byteIdx*8 ..]` and scatters the reverse transpose to
`dst[g*8*typeSize+outElem*typeSize+byteIdx]`; partial groups and trailing
remainder bytes are copied through unchanged. -/
def bitUnshuffle (src : List Nat) (typeSize : Nat) : List Nat :=
  if typeSize ≤ 1 ∨ src.length < typeSize then src
  else
    let n := src.length
    let numElements := n / typeSize
    let numGroups := numElements / 8
    let dst := nest3Writes numGroups typeSize 8
      (fun g byteIdx outElem => g * 8 * typeSize + outElem * typeSize + byteIdx)
      (fun g byteIdx outElem => untransposeByte src (g * 8 * typeSize) typeSize byteIdx outElem)
      (List.replicate n 0)
    let dst := if numElements % 8 > 0 then
        copyRange src dst (numGroups * 8 * typeSize) (numElements * typeSize) else dst
    if n % typeSize > 0 then copyRange src dst (numElements * typeSize) n else dst

/-- `ShuffleBuffer(data, typeSize, mode)` result value (the Go function
overwrites `data` with this value in place). -/
def ShuffleBuffer (data : List Nat) (typeSize : Nat) (mode : Nat) : List Nat :=
  if mode = 1 then shuffleBytes data typeSize
  else if mode = 2 then bitShuffle data typeSize
  else data

/-- `UnshuffleBuffer(data, typeSize, mode)` result value. -/
def UnshuffleBuffer (data : List Nat) (typeSize : Nat) (mode : Nat) : List Nat :=
  if mode = 1 then unshuffleBytes data typeSize
  else if mode = 2 then bitUnshuffle data typeSize
  else data

/-! ### Length preservation -/

theorem length_shuffleBytes (src : List Nat) (typeSize : Nat) :
    (shuffleBytes src typeSize).length = src.length := by
  unfold shuffleBytes
  split
  · rfl
  · dsimp only
    split
    · rw [length_copyRange, length_nestWrites, List.length_replicate]
    · rw [length_nestWrites, List.length_replicate]

theorem length_unshuffleBytes (src : List Nat) (typeSize : Nat) :
    (unshuffleBytes src typeSize).length = src.length := by
  unfold unshuffleBytes
  split
  · rfl
  · dsimp only
    split
    · rw [length_copyRange, length_nestWrites, List.length_replicate]
    · rw [length_nestWrites, List.length_replicate]

theorem length_bitShuffle (src : List Nat) (typeSize : Nat) :
    (bitShuffle src typeSize).length = src.length := by
  unfold bitShuffle
  split
  · rfl
  · dsimp only
    split <;> split <;>
      simp only [length_copyRange, length_nest3Writes, List.length_replicate]

theorem length_bitUnshuffle (src : List Nat) (typeSize : Nat) :
    (bitUnshuffle src typeSize).length = src.length := by
  unfold bitUnshuffle
  split
  · rfl
  · dsimp only
    split <;> split <;>
      simp only [length_copyRange, length_nest3Writes, List.length_replicate]

/-! ### Pointwise characterization of the byte shuffle -/

theorem shuffleBytes_getD (src : List Nat) (T : Nat) (h1 : 1 < T) (h2 : T ≤ src.length)
    (k : Nat) (hk : k < src.length) :
    (shuffleBytes src T).getD k 0 =
      if k < src.length / T * T then
        src.getD (k % (src.length / T) * T + k / (src.length / T)) 0
      else src.getD k 0 := by
  have hneg : ¬ (T ≤ 1 ∨ src.length < T) := by omega
  have hT0 : 0 < T := by omega
  have hE0 : 0 < src.length / T := (Nat.one_le_div_iff hT0).mpr h2
  unfold shuffleBytes
  rw [if_neg hneg]
  dsimp only
  by_cases hreg : k < src.length / T * T
  · rw [if_pos hreg]
    have hcopy : ∀ d : List Nat,
        (if src.length % T > 0 then
          copyRange src d (src.length / T * T) src.length else d).getD k 0 = d.getD k 0 := by
      intro d
      split
      · exact copyRange_getD_miss _ _ _ _ _ (Or.inl hreg)
      · rfl
    rw [hcopy]
    refine nestWrites_getD_hit _ _ _ _ _ _ (k % (src.length / T)) (k / (src.length / T))
      (Nat.mod_lt _ hE0) ?_ ?_ ?_ ?_
    · rw [Nat.div_lt_iff_lt_mul hE0]
      calc k < src.length / T * T := hreg
        _ = T * (src.length / T) := mul_comm ..
    · show k / (src.length / T) * (src.length / T) + k % (src.length / T) = k
      rw [mul_comm]
      exact Nat.div_add_mod ..
    · intro i j hi hj hp
      have hp' : j * (src.length / T) + i = k := hp
      have hk' : k / (src.length / T) * (src.length / T) + k % (src.length / T) = k := by
        rw [mul_comm]; exact Nat.div_add_mod ..
      have := euclid_unique (src.length / T) j i (k / (src.length / T)) (k % (src.length / T))
        hE0 hi (Nat.mod_lt _ hE0) (by rw [hp', hk'])
      exact ⟨this.2, this.1⟩
    · simpa using hk
  · rw [if_neg hreg]
    have h3 : src.length / T * T ≤ k := by omega
    have hcomm : T * (src.length / T) = src.length / T * T := mul_comm ..
    have hmod : T * (src.length / T) + src.length % T = src.length := Nat.div_add_mod ..
    have hrem : src.length % T > 0 := by omega
    rw [if_pos hrem]
    refine copyRange_getD_hit _ _ _ _ _ h3 hk ?_
    rw [length_nestWrites, List.length_replicate]
    exact hk

theorem unshuffleBytes_getD (src : List Nat) (T : Nat) (h1 : 1 < T) (h2 : T ≤ src.length)
    (k : Nat) (hk : k < src.length) :
    (unshuffleBytes src T).getD k 0 =
      if k < src.length / T * T then
        src.getD (k % T * (src.length / T) + k / T) 0
      else src.getD k 0 := by
  have hneg : ¬ (T ≤ 1 ∨ src.length < T) := by omega
  have hT0 : 0 < T := by omega
  have hE0 : 0 < src.length / T := (Nat.one_le_div_iff hT0).mpr h2
  unfold unshuffleBytes
  rw [if_neg hneg]
  dsimp only
  by_cases hreg : k < src.length / T * T
  · rw [if_pos hreg]
    have hcopy : ∀ d : List Nat,
        (if src.length % T > 0 then
          copyRange src d (src.length / T * T) src.length else d).getD k 0 = d.getD k 0 := by
      intro d
      split
      · exact copyRange_getD_miss _ _ _ _ _ (Or.inl hreg)
      · rfl
    rw [hcopy]
    refine nestWrites_getD_hit _ _ _ _ _ _ (k / T) (k % T)
      ?_ (Nat.mod_lt _ hT0) ?_ ?_ ?_
    · rw [Nat.div_lt_iff_lt_mul hT0]
      exact hreg
    · show k / T * T + k % T = k
      rw [mul_comm]
      exact Nat.div_add_mod ..
    · intro i j hi hj hp
      have hp' : i * T + j = k := hp
      have hk' : k / T * T + k % T = k := by
        rw [mul_comm]; exact Nat.div_add_mod ..
      exact euclid_unique T i j (k / T) (k % T) hT0 hj (Nat.mod_lt _ hT0) (by rw [hp', hk'])
    · simpa using hk
  · rw [if_neg hreg]
    have h3 : src.length / T * T ≤ k := by omega
    have hcomm : T * (src.length / T) = src.length / T * T := mul_comm ..
    have hmod : T * (src.length / T) + src.length % T = src.length := Nat.div_add_mod ..
    have hrem : src.length % T > 0 := by omega
    rw [if_pos hrem]
    refine copyRange_getD_hit _ _ _ _ _ h3 hk ?_
    rw [length_nestWrites, List.length_replicate]
    exact hk

/-! ### Pointwise characterization of the bit shuffle -/

theorem bitShuffle_getD (src : List Nat) (T : Nat) (h1 : 1 < T) (h2 : T ≤ src.length)
    (k : Nat) (hk : k < src.length) :
    (bitShuffle src T).getD k 0 =
      if k < src.length / T / 8 * 8 * T then
        transposeByte src (k / (8 * T) * 8 * T) T (k % (8 * T) / 8) (k % (8 * T) % 8)
      else src.getD k 0 := by
  have hneg : ¬ (T ≤ 1 ∨ src.length < T) := by omega
  have hT0 : 0 < T := by omega
  have hB0 : 0 < 8 * T := by omega
  have hGT : src.length / T / 8 * 8 * T ≤ src.length / T * T :=
    Nat.mul_le_mul_right T (Nat.div_mul_le_self _ 8)
  have hET : src.length / T * T ≤ src.length := Nat.div_mul_le_self _ _
  unfold bitShuffle
  rw [if_neg hneg]
  dsimp only
  by_cases hreg : k < src.length / T / 8 * 8 * T
  · rw [if_pos hreg]
    have hcopy2 : ∀ d : List Nat,
        (if src.length % T > 0 then
          copyRange src d (src.length / T * T) src.length else d).getD k 0 = d.getD k 0 := by
      intro d
      split
      · exact copyRange_getD_miss _ _ _ _ _ (Or.inl (by omega))
      · rfl
    rw [hcopy2]
    have hcopy1 : ∀ d : List Nat,
        (if src.length / T % 8 > 0 then
          copyRange src d (src.length / T / 8 * 8 * T) (src.length / T * T) else d).getD k 0 =
          d.getD k 0 := by
      intro d
      split
      · exact copyRange_getD_miss _ _ _ _ _ (Or.inl hreg)
      · rfl
    rw [hcopy1]
    refine nest3Writes_getD_hit _ _ _ _ _ _ _
      (k / (8 * T)) (k % (8 * T) / 8) (k % (8 * T) % 8) ?_ ?_ ?_ ?_ ?_ ?_
    · rw [Nat.div_lt_iff_lt_mul hB0, ← mul_assoc]
      exact hreg
    · rw [Nat.div_lt_iff_lt_mul (by norm_num : (0:Nat) < 8)]
      have := Nat.mod_lt k hB0
      omega
    · exact Nat.mod_lt _ (by norm_num)
    · show k / (8 * T) * 8 * T + k % (8 * T) / 8 * 8 + k % (8 * T) % 8 = k
      have e2 := Nat.div_add_mod k (8 * T)
      have e3 : k / (8 * T) * 8 * T = 8 * T * (k / (8 * T)) := by ring
      omega
    · intro g i j hg hi hj hp
      have hp' : g * 8 * T + i * 8 + j = k := hp
      have hassoc : g * 8 * T = g * (8 * T) := mul_assoc ..
      have hb : i * 8 + j < 8 * T := by omega
      have hk' : k / (8 * T) * (8 * T) + k % (8 * T) = k := by
        rw [mul_comm]; exact Nat.div_add_mod ..
      have hu1 := euclid_unique (8 * T) g (i * 8 + j) (k / (8 * T)) (k % (8 * T))
        hB0 hb (Nat.mod_lt _ hB0) (by omega)
      have hu2 := euclid_unique 8 i j (k % (8 * T) / 8) (k % (8 * T) % 8)
        (by norm_num) hj (Nat.mod_lt _ (by norm_num)) (by omega)
      exact ⟨hu1.1, hu2.1, hu2.2⟩
    · simpa using hk
  · rw [if_neg hreg]
    have hEdm := Nat.div_add_mod (src.length / T) 8
    have hEcm : 8 * (src.length / T / 8) = src.length / T / 8 * 8 := mul_comm ..
    have hGTassoc : src.length / T / 8 * 8 * T = src.length / T / 8 * 8 * T := rfl
    by_cases hreg2 : k < src.length / T * T
    · -- partial-group region: the first copy applies
      have hmul : src.length / T / 8 * 8 * T < src.length / T * T := by omega
      have hlt : src.length / T / 8 * 8 < src.length / T :=
        Nat.lt_of_mul_lt_mul_right hmul
      have hpart : src.length / T % 8 > 0 := by omega
      have hcopy2 : ∀ d : List Nat,
          (if src.length % T > 0 then
            copyRange src d (src.length / T * T) src.length else d).getD k 0 = d.getD k 0 := by
        intro d
        split
        · exact copyRange_getD_miss _ _ _ _ _ (Or.inl hreg2)
        · rfl
      rw [hcopy2, if_pos hpart]
      refine copyRange_getD_hit _ _ _ _ _ (by omega) hreg2 ?_
      rw [length_nest3Writes, List.length_replicate]
      exact hk
    · -- trailing remainder region: the second copy applies
      have hTdm := Nat.div_add_mod src.length T
      have hTcm : T * (src.length / T) = src.length / T * T := mul_comm ..
      have hrem : src.length % T > 0 := by omega
      rw [if_pos hrem]
      refine copyRange_getD_hit _ _ _ _ _ (by omega) hk ?_
      split
      · rw [length_copyRange, length_nest3Writes, List.length_replicate]
        exact hk
      · rw [length_nest3Writes, List.length_replicate]
        exact hk

theorem bitUnshuffle_getD (src : List Nat) (T : Nat) (h1 : 1 < T) (h2 : T ≤ src.length)
    (k : Nat) (hk : k < src.length) :
    (bitUnshuffle src T).getD k 0 =
      if k < src.length / T / 8 * 8 * T then
        untransposeByte src (k / (8 * T) * 8 * T) T (k % (8 * T) % T) (k % (8 * T) / T)
      else src.getD k 0 := by
  have hneg : ¬ (T ≤ 1 ∨ src.length < T) := by omega
  have hT0 : 0 < T := by omega
  have hB0 : 0 < 8 * T := by omega
  have hGT : src.length / T / 8 * 8 * T ≤ src.length / T * T :=
    Nat.mul_le_mul_right T (Nat.div_mul_le_self _ 8)
  have hET : src.length / T * T ≤ src.length := Nat.div_mul_le_self _ _
  unfold bitUnshuffle
  rw [if_neg hneg]
  dsimp only
  by_cases hreg : k < src.length / T / 8 * 8 * T
  · rw [if_pos hreg]
    have hcopy2 : ∀ d : List Nat,
        (if src.length % T > 0 then
          copyRange src d (src.length / T * T) src.length else d).getD k 0 = d.getD k 0 := by
      intro d
      split
      · exact copyRange_getD_miss _ _ _ _ _ (Or.inl (by omega))
      · rfl
    rw [hcopy2]
    have hcopy1 : ∀ d : List Nat,
        (if src.length / T % 8 > 0 then
          copyRange src d (src.length / T / 8 * 8 * T) (src.length / T * T) else d).getD k 0 =
          d.getD k 0 := by
      intro d
      split
      · exact copyRange_getD_miss _ _ _ _ _ (Or.inl hreg)
      · rfl
    rw [hcopy1]
    refine nest3Writes_getD_hit _ _ _ _ _ _ _
      (k / (8 * T)) (k % (8 * T) % T) (k % (8 * T) / T) ?_ ?_ ?_ ?_ ?_ ?_
    · rw [Nat.div_lt_iff_lt_mul hB0, ← mul_assoc]
      exact hreg
    · exact Nat.mod_lt _ hT0
    · rw [Nat.div_lt_iff_lt_mul hT0]
      have := Nat.mod_lt k hB0
      omega
    · show k / (8 * T) * 8 * T + k % (8 * T) / T * T + k % (8 * T) % T = k
      have e2 := Nat.div_add_mod k (8 * T)
      have e3 : k / (8 * T) * 8 * T = 8 * T * (k / (8 * T)) := by ring
      have e4 := Nat.div_add_mod (k % (8 * T)) T
      have e5 : k % (8 * T) / T * T = T * (k % (8 * T) / T) := mul_comm ..
      omega
    · intro g i j hg hi hj hp
      have hp' : g * 8 * T + j * T + i = k := hp
      have hassoc : g * 8 * T = g * (8 * T) := mul_assoc ..
      have hjT : j * T + i < 8 * T := by
        have h8 : (j + 1) * T ≤ 8 * T := Nat.mul_le_mul_right T (by omega)
        have e : (j + 1) * T = j * T + T := by ring
        omega
      have hk' : k / (8 * T) * (8 * T) + k % (8 * T) = k := by
        rw [mul_comm]; exact Nat.div_add_mod ..
      have hu1 := euclid_unique (8 * T) g (j * T + i) (k / (8 * T)) (k % (8 * T))
        hB0 hjT (Nat.mod_lt _ hB0) (by omega)
      have hmodeq : j * T + i = k % (8 * T) := hu1.2
      have hu2 := euclid_unique T j i (k % (8 * T) / T) (k % (8 * T) % T)
        hT0 hi (Nat.mod_lt _ hT0) (by
          have := Nat.div_add_mod (k % (8 * T)) T
          have e5 : k % (8 * T) / T * T = T * (k % (8 * T) / T) := mul_comm ..
          omega)
      exact ⟨hu1.1, hu2.2, hu2.1⟩
    · simpa using hk
  · rw [if_neg hreg]
    have hEdm := Nat.div_add_mod (src.length / T) 8
    have hEcm : 8 * (src.length / T / 8) = src.length / T / 8 * 8 := mul_comm ..
    by_cases hreg2 : k < src.length / T * T
    · have hmul : src.length / T / 8 * 8 * T < src.length / T * T := by omega
      have hlt : src.length / T / 8 * 8 < src.length / T :=
        Nat.lt_of_mul_lt_mul_right hmul
      have hpart : src.length / T % 8 > 0 := by omega
      have hcopy2 : ∀ d : List Nat,
          (if src.length % T > 0 then
            copyRange src d (src.length / T * T) src.length else d).getD k 0 = d.getD k 0 := by
        intro d
        split
        · exact copyRange_getD_miss _ _ _ _ _ (Or.inl hreg2)
        · rfl
      rw [hcopy2, if_pos hpart]
      refine copyRange_getD_hit _ _ _ _ _ (by omega) hreg2 ?_
      rw [length_nest3Writes, List.length_replicate]
      exact hk
    · have hTdm := Nat.div_add_mod src.length T
      have hTcm : T * (src.length / T) = src.length / T * T := mul_comm ..
      have hrem : src.length % T > 0 := by omega
      rw [if_pos hrem]
      refine copyRange_getD_hit _ _ _ _ _ (by omega) hk ?_
      split
      · rw [length_copyRange, length_nest3Writes, List.length_replicate]
        exact hk
      · rw [length_nest3Writes, List.length_replicate]
        exact hk

/-! ### Bit-level facts about the 8×8 transpose bytes -/

theorem transposeByte_testBit (src : List Nat) (base T byteIdx outBit inByte : Nat)
    (h : inByte < 8) :
    (transposeByte src base T byteIdx outBit).testBit (7 - inByte) =
      (src.getD (base + inByte * T + byteIdx) 0).testBit (7 - outBit) := by
  have e : transposeByte src base T byteIdx outBit =
      (List.range 8).foldl
        (fun a i => if src.getD (base + i * T + byteIdx) 0 &&& (1 <<< (7 - outBit)) ≠ 0
          then a ||| (1 <<< (7 - i)) else a) 0 := rfl
  have key := orFold_testBit
      (fun i => src.getD (base + i * T + byteIdx) 0 &&& (1 <<< (7 - outBit)) ≠ 0)
      8 (le_refl 8) 0 inByte h
  rw [e, key]
  have hs : (1 <<< (7 - outBit) : Nat) = 2 ^ (7 - outBit) := by
    rw [Nat.shiftLeft_eq, one_mul]
  rw [hs]
  rcases hb : (src.getD (base + inByte * T + byteIdx) 0).testBit (7 - outBit) with _ | _
  · have hz : src.getD (base + inByte * T + byteIdx) 0 &&& 2 ^ (7 - outBit) = 0 := by
      by_contra hc
      rw [(and_two_pow_ne_zero_iff _ _).mp hc] at hb
      exact Bool.noConfusion hb
    simp [h]
    simpa [List.getD] using hz
  · have hz : src.getD (base + inByte * T + byteIdx) 0 &&& 2 ^ (7 - outBit) ≠ 0 :=
      (and_two_pow_ne_zero_iff _ _).mpr hb
    simp [h]
    simpa [List.getD] using hz

theorem transposeByte_lt (src : List Nat) (base T byteIdx outBit : Nat) :
    transposeByte src base T byteIdx outBit < 256 := by
  have e : transposeByte src base T byteIdx outBit =
      (List.range 8).foldl
        (fun a i => if src.getD (base + i * T + byteIdx) 0 &&& (1 <<< (7 - outBit)) ≠ 0
          then a ||| (1 <<< (7 - i)) else a) 0 := rfl
  rw [e]
  exact orFold_lt _ 8 (le_refl 8) 0 (by norm_num)

theorem untransposeByte_testBit (src : List Nat) (base T byteIdx outElem inBit : Nat)
    (h : inBit < 8) :
    (untransposeByte src base T byteIdx outElem).testBit (7 - inBit) =
      (src.getD (base + byteIdx * 8 + inBit) 0).testBit (7 - outElem) := by
  have e : untransposeByte src base T byteIdx outElem =
      (List.range 8).foldl
        (fun a i => if src.getD (base + byteIdx * 8 + i) 0 &&& (1 <<< (7 - outElem)) ≠ 0
          then a ||| (1 <<< (7 - i)) else a) 0 := rfl
  have key := orFold_testBit
      (fun i => src.getD (base + byteIdx * 8 + i) 0 &&& (1 <<< (7 - outElem)) ≠ 0)
      8 (le_refl 8) 0 inBit h
  rw [e, key]
  have hs : (1 <<< (7 - outElem) : Nat) = 2 ^ (7 - outElem) := by
    rw [Nat.shiftLeft_eq, one_mul]
  rw [hs]
  rcases hb : (src.getD (base + byteIdx * 8 + inBit) 0).testBit (7 - outElem) with _ | _
  · have hz : src.getD (base + byteIdx * 8 + inBit) 0 &&& 2 ^ (7 - outElem) = 0 := by
      by_contra hc
      rw [(and_two_pow_ne_zero_iff _ _).mp hc] at hb
      exact Bool.noConfusion hb
    simp [h]
    simpa [List.getD] using hz
  · have hz : src.getD (base + byteIdx * 8 + inBit) 0 &&& 2 ^ (7 - outElem) ≠ 0 :=
      (and_two_pow_ne_zero_iff _ _).mpr hb
    simp [h]
    simpa [List.getD] using hz

theorem untransposeByte_lt (src : List Nat) (base T byteIdx outElem : Nat) :
    untransposeByte src base T byteIdx outElem < 256 := by
  have e : untransposeByte src base T byteIdx outElem =
      (List.range 8).foldl
        (fun a i => if src.getD (base + byteIdx * 8 + i) 0 &&& (1 <<< (7 - outElem)) ≠ 0
          then a ||| (1 <<< (7 - i)) else a) 0 := rfl
  rw [e]
  exact orFold_lt _ 8 (le_refl 8) 0 (by norm_num)

/-! ### Round-trip: the inverse transforms undo the forward transforms -/

theorem unshuffleBytes_shuffleBytes (src : List Nat) (T : Nat) :
    unshuffleBytes (shuffleBytes src T) T = src := by
  by_cases hdeg : T ≤ 1 ∨ src.length < T
  · have e1 : shuffleBytes src T = src := by unfold shuffleBytes; rw [if_pos hdeg]
    rw [e1]
    unfold unshuffleBytes
    rw [if_pos hdeg]
  · have h1 : 1 < T := by omega
    have h2 : T ≤ src.length := by omega
    have hT0 : 0 < T := by omega
    have hE0 : 0 < src.length / T := (Nat.one_le_div_iff hT0).mpr h2
    have hET : src.length / T * T ≤ src.length := Nat.div_mul_le_self _ _
    have hlen1 : (shuffleBytes src T).length = src.length := length_shuffleBytes ..
    apply ext_getD
    · rw [length_unshuffleBytes, hlen1]
    · intro k hk'
      have hk : k < src.length := by rwa [length_unshuffleBytes, hlen1] at hk'
      have hun := unshuffleBytes_getD (shuffleBytes src T) T h1
        (by rw [hlen1]; exact h2) k (by rw [hlen1]; exact hk)
      rw [hlen1] at hun
      rw [hun]
      by_cases hreg : k < src.length / T * T
      · rw [if_pos hreg]
        have hj : k % T < T := Nat.mod_lt _ hT0
        have hi : k / T < src.length / T := by
          rw [Nat.div_lt_iff_lt_mul hT0]
          exact hreg
        have hq : k % T * (src.length / T) + k / T < src.length / T * T := by
          have hstep : (k % T + 1) * (src.length / T) ≤ T * (src.length / T) :=
            Nat.mul_le_mul_right _ (by omega)
          have e1 : (k % T + 1) * (src.length / T) =
              k % T * (src.length / T) + src.length / T := by ring
          have e2 : T * (src.length / T) = src.length / T * T := mul_comm ..
          omega
        have hsh := shuffleBytes_getD src T h1 h2 (k % T * (src.length / T) + k / T)
          (lt_of_lt_of_le hq hET)
        rw [hsh, if_pos hq]
        rw [mod_mul_add_eq _ _ _ hE0 hi, div_mul_add_eq _ _ _ hE0 hi]
        rw [show k / T * T + k % T = k by rw [mul_comm]; exact Nat.div_add_mod ..]
      · rw [if_neg hreg]
        have hsh := shuffleBytes_getD src T h1 h2 k hk
        rw [hsh, if_neg hreg]

theorem bitUnshuffle_bitShuffle (src : List Nat) (T : Nat)
    (hbytes : ∀ b ∈ src, b < 256) :
    bitUnshuffle (bitShuffle src T) T = src := by
  by_cases hdeg : T ≤ 1 ∨ src.length < T
  · have e1 : bitShuffle src T = src := by unfold bitShuffle; rw [if_pos hdeg]
    rw [e1]
    unfold bitUnshuffle
    rw [if_pos hdeg]
  · have h1 : 1 < T := by omega
    have h2 : T ≤ src.length := by omega
    have hT0 : 0 < T := by omega
    have hB0 : 0 < 8 * T := by omega
    have hGT : src.length / T / 8 * 8 * T ≤ src.length / T * T :=
      Nat.mul_le_mul_right T (Nat.div_mul_le_self _ 8)
    have hET : src.length / T * T ≤ src.length := Nat.div_mul_le_self _ _
    have hlen1 : (bitShuffle src T).length = src.length := length_bitShuffle ..
    apply ext_getD
    · rw [length_bitUnshuffle, hlen1]
    · intro k hk'
      have hk : k < src.length := by rwa [length_bitUnshuffle, hlen1] at hk'
      have hun := bitUnshuffle_getD (bitShuffle src T) T h1
        (by rw [hlen1]; exact h2) k (by rw [hlen1]; exact hk)
      rw [hlen1] at hun
      rw [hun]
      by_cases hreg : k < src.length / T / 8 * 8 * T
      · rw [if_pos hreg]
        have hg : k / (8 * T) < src.length / T / 8 := by
          rw [Nat.div_lt_iff_lt_mul hB0, ← mul_assoc]
          exact hreg
        have hr : k % (8 * T) < 8 * T := Nat.mod_lt _ hB0
        have hbyteIdx : k % (8 * T) % T < T := Nat.mod_lt _ hT0
        have houtElem : k % (8 * T) / T < 8 := by
          rw [Nat.div_lt_iff_lt_mul hT0]
          omega
        refine byte_ext _ _ (untransposeByte_lt ..) (hbytes _ (getD_mem _ _ hk)) ?_
        intro inBit hinBit
        rw [untransposeByte_testBit _ _ _ _ _ _ hinBit]
        have hoff : k % (8 * T) % T * 8 + inBit < 8 * T := by omega
        have eidx : k / (8 * T) * 8 * T + k % (8 * T) % T * 8 + inBit =
            k / (8 * T) * (8 * T) + (k % (8 * T) % T * 8 + inBit) := by ring
        have hidxlt : k / (8 * T) * 8 * T + k % (8 * T) % T * 8 + inBit <
            src.length / T / 8 * 8 * T := by
          have hstep : (k / (8 * T) + 1) * (8 * T) ≤ src.length / T / 8 * (8 * T) :=
            Nat.mul_le_mul_right _ (by omega)
          have e1 : (k / (8 * T) + 1) * (8 * T) = k / (8 * T) * (8 * T) + 8 * T := by ring
          have e2 : src.length / T / 8 * (8 * T) = src.length / T / 8 * 8 * T :=
            (mul_assoc ..).symm
          omega
        have hsh := bitShuffle_getD src T h1 h2
          (k / (8 * T) * 8 * T + k % (8 * T) % T * 8 + inBit) (by omega)
        rw [hsh, if_pos hidxlt]
        have hdiv : (k / (8 * T) * 8 * T + k % (8 * T) % T * 8 + inBit) / (8 * T) =
            k / (8 * T) := by
          rw [eidx]
          exact div_mul_add_eq _ _ _ hB0 hoff
        have hmod : (k / (8 * T) * 8 * T + k % (8 * T) % T * 8 + inBit) % (8 * T) =
            k % (8 * T) % T * 8 + inBit := by
          rw [eidx]
          exact mod_mul_add_eq _ _ _ hB0 hoff
        rw [hdiv, hmod]
        rw [div_mul_add_eq 8 (k % (8 * T) % T) inBit (by norm_num) hinBit]
        rw [mod_mul_add_eq 8 (k % (8 * T) % T) inBit (by norm_num) hinBit]
        rw [transposeByte_testBit src _ T _ inBit (k % (8 * T) / T) houtElem]
        have efinal : k / (8 * T) * 8 * T + k % (8 * T) / T * T + k % (8 * T) % T = k := by
          have e2 := Nat.div_add_mod k (8 * T)
          have e3 : k / (8 * T) * 8 * T = 8 * T * (k / (8 * T)) := by ring
          have e4 := Nat.div_add_mod (k % (8 * T)) T
          have e5 : k % (8 * T) / T * T = T * (k % (8 * T) / T) := mul_comm ..
          omega
        rw [efinal]
      · rw [if_neg hreg]
        have hsh := bitShuffle_getD src T h1 h2 k hk
        rw [hsh, if_neg hreg]

/-! ## Header codec and pipeline (embedding of codec.go)

Go `byte`/`uint8` values are `Nat`s kept below 256 by construction;
`uint32` conversions are explicit `% 4294967296`.  The codec registry
(the `codecs` map, whose entries wrap third-party compression libraries)
is a parameter `reg : Nat → Option CodecImpl` of the pipeline functions:
the libraries themselves are external collaborators outside this
repository, so a codec is an abstract pair of compress/decompress
functions. -/

/-- `HeaderSize` constant: the 16-byte Blosc header. -/
def HeaderSize : Nat := 16

/-- `FormatVersion` constant: Blosc format version 2. -/
def FormatVersion : Nat := 2

/-- Flag bit `flagShuffle` (0x1). -/
def flagShuffle : Nat := 1

/-- Flag bit `flagMemcpy` (0x2). -/
def flagMemcpy : Nat := 2

/-- Flag bit `flagBitShuffle` (0x4). -/
def flagBitShuffle : Nat := 4

/-- Shuffle-mode identifier `NoShuffle` (0x0). -/
def NoShuffle : Nat := 0

/-- Shuffle-mode identifier `Shuffle1` (0x1, byte shuffle). -/
def Shuffle1 : Nat := 1

/-- Shuffle-mode identifier `BitShuffle` (0x2, bit shuffle). -/
def BitShuffleMode : Nat := 2

/-- Error kinds of codec.go (`ErrInvalidData`, `ErrInvalidHeader`, ...). -/
inductive BloscError where
  | invalidData
  | invalidHeader
  | invalidVersion
  | invalidCodec
  | sizeMismatch
  | dataTooLarge
  | compressionFailed
  | decompressionFailed
deriving DecidableEq, Repr

/-- The 16-byte Blosc frame `Header` record. -/
structure Header where
  version : Nat
  versionLZ : Nat
  flags : Nat
  typeSize : Nat
  nbytesOrig : Nat
  blockSize : Nat
  nbytesComp : Nat
deriving DecidableEq, Repr

/-- `binary.LittleEndian.Uint32(data[off:off+4])`. -/
def le32 (data : List Nat) (off : Nat) : Nat :=
  data.getD off 0 + data.getD (off + 1) 0 * 256 +
    data.getD (off + 2) 0 * 65536 + data.getD (off + 3) 0 * 16777216

/-- `binary.LittleEndian.PutUint32`: the four little-endian bytes of `v`. -/
def putLE32 (v : Nat) : List Nat :=
  [v % 256, v / 256 % 256, v / 65536 % 256, v / 16777216 % 256]

/-- `ParseHeader(data)`: fails with `InvalidHeader` below 16 bytes and with
`InvalidVersion` when the version byte differs from 2. -/
def ParseHeader (data : List Nat) : Except BloscError Header :=
  if data.length < HeaderSize then .error .invalidHeader
  else
    let h : Header := {
      version := data.getD 0 0
      versionLZ := data.getD 1 0
      flags := data.getD 2 0
      typeSize := data.getD 3 0
      nbytesOrig := le32 data 4
      blockSize := le32 data 8
      nbytesComp := le32 data 12 }
    if h.version ≠ FormatVersion then .error .invalidVersion
    else .ok h

/-- `Header.Bytes()`: serializes the header, fields little-endian. -/
def Header.bytes (h : Header) : List Nat :=
  [h.version, h.versionLZ, h.flags, h.typeSize] ++
    putLE32 h.nbytesOrig ++ putLE32 h.blockSize ++ putLE32 h.nbytesComp

/-- `Header.HasShuffle()`. -/
def Header.hasShuffle (h : Header) : Bool := h.flags &&& flagShuffle != 0

/-- `Header.HasBitShuffle()`. -/
def Header.hasBitShuffle (h : Header) : Bool := h.flags &&& flagBitShuffle != 0

/-- `Header.IsMemcpy()`. -/
def Header.isMemcpy (h : Header) : Bool := h.flags &&& flagMemcpy != 0

/-- `Header.ShuffleMode()`: Bit > Byte > None precedence. -/
def Header.shuffleMode (h : Header) : Nat :=
  if h.hasBitShuffle then BitShuffleMode
  else if h.hasShuffle then Shuffle1
  else NoShuffle

/-- A registered codec as seen through `CodecInterface`: a
compress/decompress pair.  `comp data level` and `decomp data expectedSize`
abstract the third-party libraries behind `Compress`/`Decompress`. -/
structure CodecImpl where
  comp : List Nat → Nat → Except Unit (List Nat)
  decomp : List Nat → Nat → Except Unit (List Nat)

/-- `Options` (the `NumThreads` field is reserved and unused). -/
structure Options where
  codec : Nat
  level : Nat
  shuffle : Nat
  typeSize : Nat
  blockSize : Nat
deriving DecidableEq, Repr

/-- The shuffle-preprocessing step of `compressBackend`. -/
def shuffleStage (data : List Nat) (opts : Options) : List Nat :=
  if opts.shuffle = Shuffle1 ∧ opts.typeSize > 1 then shuffleBytes data opts.typeSize
  else if opts.shuffle = BitShuffleMode ∧ opts.typeSize > 1 then bitShuffle data opts.typeSize
  else data

/-- `compressBackend(data, opts)` over an abstract codec registry `reg`
(the `codecs` map).  Mirrors codec.go: shuffle, compress, memcpy decision
`useMemcpy = len(compressed) >= len(data)`, flag assembly, header with
`uint32` conversions, and `header || payload` output. -/
def compressBackend (reg : Nat → Option CodecImpl) (data : List Nat) (opts : Options) :
    Except BloscError (List Nat) :=
  match reg opts.codec with
  | none => .error .invalidCodec
  | some compressor =>
    match compressor.comp (shuffleStage data opts) opts.level with
    | .error _ => .error .compressionFailed
    | .ok compressed0 =>
      let useMemcpy : Bool := decide (compressed0.length ≥ data.length)
      let compressed := if useMemcpy then data else compressed0
      let flags :=
        (if opts.shuffle = Shuffle1 then flagShuffle
         else if opts.shuffle = BitShuffleMode then flagBitShuffle else 0) |||
        (if useMemcpy then flagMemcpy else 0)
      let header : Header := {
        version := FormatVersion
        versionLZ := opts.codec % 256
        flags := flags
        typeSize := opts.typeSize % 256
        nbytesOrig := data.length % 4294967296
        blockSize := data.length % 4294967296
        nbytesComp := (HeaderSize + compressed.length) % 4294967296 }
      .ok (header.bytes ++ compressed)

/-- `CompressWithOptions(data, opts)`: rejects empty input, clamps
`typeSize` and `level`, then calls the backend. -/
def CompressWithOptions (reg : Nat → Option CodecImpl) (data : List Nat) (opts : Options) :
    Except BloscError (List Nat) :=
  if data.length = 0 then .error .invalidData
  else
    let o1 := if opts.typeSize ≤ 0 then { opts with typeSize := 1 } else opts
    let o2 := if o1.level < 1 then { o1 with level := 1 } else o1
    let o3 := if o2.level > 9 then { o2 with level := 9 } else o2
    compressBackend reg data o3

/-- `Compress(data, codec, level, shuffle, typeSize)`. -/
def Compress (reg : Nat → Option CodecImpl) (data : List Nat)
    (codec level shuffle typeSize : Nat) : Except BloscError (List Nat) :=
  CompressWithOptions reg data ⟨codec, level, shuffle, typeSize, 0⟩

/-- `data[HeaderSize:header.NBytesComp]`: the frame payload slice. -/
def framePayload (data : List Nat) (nbytesComp : Nat) : List Nat :=
  (data.take nbytesComp).drop HeaderSize

/-- The decode step of `decompressBackend`: memcpy passthrough, or codec
lookup by `VersionLZ` followed by `Decompress(payload, NBytesOrig)`. -/
def decodeStage (reg : Nat → Option CodecImpl) (h : Header) (payload : List Nat) :
    Except BloscError (List Nat) :=
  if h.isMemcpy then .ok payload
  else
    match reg h.versionLZ with
    | none => .error .invalidCodec
    | some c =>
      match c.decomp payload h.nbytesOrig with
      | .error _ => .error .decompressionFailed
      | .ok x => .ok x

/-- The inverse-shuffle step of `decompressBackend`: resolves the type size
(header value when the override is ≤ 0) and applies bit-unshuffle or byte
unshuffle by flag precedence. -/
def unshuffleStage (h : Header) (typeSize : Nat) (decompressed : List Nat) : List Nat :=
  let ts := if typeSize ≤ 0 then h.typeSize else typeSize
  if h.hasBitShuffle ∧ ts > 1 then bitUnshuffle decompressed ts
  else if h.hasShuffle ∧ ts > 1 then unshuffleBytes decompressed ts
  else decompressed

/-- `decompressBackend(data, typeSize)`: parse, validate
`HeaderSize ≤ NBytesComp ≤ len(data)`, decode, unshuffle, and verify the
final length against `NBytesOrig`. -/
def decompressBackend (reg : Nat → Option CodecImpl) (data : List Nat) (typeSize : Nat) :
    Except BloscError (List Nat) :=
  match ParseHeader data with
  | .error e => .error e
  | .ok header =>
    if header.nbytesComp > data.length then .error .invalidData
    else if header.nbytesComp < HeaderSize then .error .invalidData
    else
      match decodeStage reg header (framePayload data header.nbytesComp) with
      | .error e => .error e
      | .ok decompressed =>
        let final := unshuffleStage header typeSize decompressed
        if final.length ≠ header.nbytesOrig then .error .sizeMismatch
        else .ok final

/-- `DecompressWithSize(data, typeSize)`. -/
def DecompressWithSize (reg : Nat → Option CodecImpl) (data : List Nat) (typeSize : Nat) :
    Except BloscError (List Nat) :=
  if data.length < HeaderSize then .error .invalidHeader
  else decompressBackend reg data typeSize

/-- `Decompress(data)`. -/
def Decompress (reg : Nat → Option CodecImpl) (data : List Nat) :
    Except BloscError (List Nat) :=
  DecompressWithSize reg data 0

/-- `GetDecompressedSize(data)`. -/
def GetDecompressedSize (data : List Nat) : Except BloscError Nat :=
  match ParseHeader data with
  | .error e => .error e
  | .ok h => .ok h.nbytesOrig

/-- `lz4Codec.Decompress` (same code serves `lz4hcCodec.Decompress`),
parameterized by the third-party `lz4.UncompressBlock`, which writes at
most `expectedSize` bytes into the destination buffer (modelled by
`take expectedSize`) and reports the written count; the adapter returns
`buf[:n]` — the written prefix — without comparing `n` to `expectedSize`. -/
def lz4Decompress (uncompressBlock : List Nat → Nat → Except Unit (List Nat))
    (data : List Nat) (expectedSize : Nat) : Except Unit (List Nat) :=
  match uncompressBlock data expectedSize with
  | .error e => .error e
  | .ok written => .ok (written.take expectedSize)

/-- `zlibCodec.Decompress`, parameterized by the third-party zlib inflate
stream.  The adapter reads at most `expectedSize` bytes via `io.ReadFull`
and deliberately ignores `io.EOF` / `io.ErrUnexpectedEOF`, returning
`buf[:n]` — the bytes actually read — even when `n < expectedSize`. -/
def zlibDecompress (inflate : List Nat → Except Unit (List Nat))
    (data : List Nat) (expectedSize : Nat) : Except Unit (List Nat) :=
  match inflate data with
  | .error e => .error e
  | .ok stream => .ok (stream.take expectedSize)

/-! ## Claim theorems: shuffle engine -/

/-- C1: for every byte sequence `src` and every `typeSize ≥ 1`,
`unshuffleBytes (shuffleBytes src ts) ts = src` and
`bitUnshuffle (bitShuffle src ts) ts = src` — the forward and inverse
transforms are exact inverses on all inputs, including degenerate shapes
where the transforms are the identity. -/
theorem claim1_shuffle_roundtrip (src : List Nat) (typeSize : Nat)
    (hts : 1 ≤ typeSize) (hbytes : ∀ b ∈ src, b < 256) :
    unshuffleBytes (shuffleBytes src typeSize) typeSize = src ∧
    bitUnshuffle (bitShuffle src typeSize) typeSize = src :=
  ⟨unshuffleBytes_shuffleBytes src typeSize, bitUnshuffle_bitShuffle src typeSize hbytes⟩

theorem claim1_witness :
    (1 ≤ 2) ∧
    (unshuffleBytes (shuffleBytes
        [9, 1, 2, 3, 4, 5, 6, 7, 8, 9, 10, 11, 12, 13, 14, 15, 16] 2) 2 =
        [9, 1, 2, 3, 4, 5, 6, 7, 8, 9, 10, 11, 12, 13, 14, 15, 16] ∧
      bitUnshuffle (bitShuffle
        [9, 1, 2, 3, 4, 5, 6, 7, 8, 9, 10, 11, 12, 13, 14, 15, 16] 2) 2 =
        [9, 1, 2, 3, 4, 5, 6, 7, 8, 9, 10, 11, 12, 13, 14, 15, 16]) :=
  ⟨by norm_num,
    claim1_shuffle_roundtrip _ 2 (by norm_num) (by decide)⟩

/-- C2: in `bitShuffle` and `bitUnshuffle` with `typeSize > 1` and
`len(src) ≥ typeSize`, every byte position at or beyond the first
`8·(E/8)` elements — the trailing elements that do not fill a complete
8-element group together with the `len(src) mod typeSize` remainder
bytes — is copied to the output unchanged, in both directions. -/
theorem claim2_bitshuffle_passthrough (src : List Nat) (typeSize k : Nat)
    (h1 : 1 < typeSize) (h2 : typeSize ≤ src.length)
    (hlow : src.length / typeSize / 8 * 8 * typeSize ≤ k) (hk : k < src.length) :
    (bitShuffle src typeSize).getD k 0 = src.getD k 0 ∧
    (bitUnshuffle src typeSize).getD k 0 = src.getD k 0 := by
  constructor
  · rw [bitShuffle_getD src typeSize h1 h2 k hk, if_neg (by omega)]
  · rw [bitUnshuffle_getD src typeSize h1 h2 k hk, if_neg (by omega)]

theorem claim2_witness :
    ((1:Nat) < 2) ∧
    ((bitShuffle [0, 1, 2, 3, 4, 5, 6, 7, 8, 9, 10, 11, 12, 13, 14, 15, 16, 17, 18, 19]
        2).getD 17 0 =
      ([0, 1, 2, 3, 4, 5, 6, 7, 8, 9, 10, 11, 12, 13, 14, 15, 16, 17, 18, 19] :
        List Nat).getD 17 0 ∧
     (bitUnshuffle [0, 1, 2, 3, 4, 5, 6, 7, 8, 9, 10, 11, 12, 13, 14, 15, 16, 17, 18, 19]
        2).getD 17 0 =
      ([0, 1, 2, 3, 4, 5, 6, 7, 8, 9, 10, 11, 12, 13, 14, 15, 16, 17, 18, 19] :
        List Nat).getD 17 0) :=
  ⟨by norm_num,
    claim2_bitshuffle_passthrough _ 2 17 (by norm_num) (by decide) (by decide) (by decide)⟩

/-- C3: for `T > 1` and `len(src) ≥ T`, with `E = len(src) / T`,
`shuffleBytes` places input byte `i·T + j` at output position `j·E + i`
for all `0 ≤ i < E`, `0 ≤ j < T`, and copies the trailing `len mod T`
bytes unchanged at the end. -/
theorem claim3_shuffle_placement (src : List Nat) (T : Nat)
    (h1 : 1 < T) (h2 : T ≤ src.length) :
    (∀ i j, i < src.length / T → j < T →
      (shuffleBytes src T).getD (j * (src.length / T) + i) 0 = src.getD (i * T + j) 0) ∧
    (∀ k, src.length / T * T ≤ k → k < src.length →
      (shuffleBytes src T).getD k 0 = src.getD k 0) := by
  have hT0 : 0 < T := by omega
  have hE0 : 0 < src.length / T := (Nat.one_le_div_iff hT0).mpr h2
  have hET : src.length / T * T ≤ src.length := Nat.div_mul_le_self _ _
  constructor
  · intro i j hi hj
    have hq : j * (src.length / T) + i < src.length / T * T := by
      have hstep : (j + 1) * (src.length / T) ≤ T * (src.length / T) :=
        Nat.mul_le_mul_right _ (by omega)
      have e1 : (j + 1) * (src.length / T) = j * (src.length / T) + src.length / T := by
        ring
      have e2 : T * (src.length / T) = src.length / T * T := mul_comm ..
      omega
    rw [shuffleBytes_getD src T h1 h2 _ (by omega), if_pos hq]
    rw [mod_mul_add_eq _ _ _ hE0 hi, div_mul_add_eq _ _ _ hE0 hi]
  · intro k h3 hk
    rw [shuffleBytes_getD src T h1 h2 k hk, if_neg (by omega)]

theorem claim3_witness :
    ((1:Nat) < 2) ∧
    ((shuffleBytes [10, 20, 30, 40, 50, 60, 70, 80, 90] 2).getD (1 * 4 + 1) 0 =
      ([10, 20, 30, 40, 50, 60, 70, 80, 90] : List Nat).getD (1 * 2 + 1) 0) ∧
    ((shuffleBytes [10, 20, 30, 40, 50, 60, 70, 80, 90] 2).getD 8 0 =
      ([10, 20, 30, 40, 50, 60, 70, 80, 90] : List Nat).getD 8 0) :=
  ⟨by norm_num,
    (claim3_shuffle_placement [10, 20, 30, 40, 50, 60, 70, 80, 90] 2
      (by norm_num) (by decide)).1 1 1 (by decide) (by norm_num),
    (claim3_shuffle_placement [10, 20, 30, 40, 50, 60, 70, 80, 90] 2
      (by norm_num) (by decide)).2 8 (by decide) (by decide)⟩

/-- C9: length preservation — for every input `x` and every `typeSize`,
all four transforms return a buffer of exactly `len(x)` bytes; no
transform grows or shrinks the buffer. -/
theorem claim9_length_preservation (x : List Nat) (typeSize : Nat) :
    (shuffleBytes x typeSize).length = x.length ∧
    (unshuffleBytes x typeSize).length = x.length ∧
    (bitShuffle x typeSize).length = x.length ∧
    (bitUnshuffle x typeSize).length = x.length :=
  ⟨length_shuffleBytes .., length_unshuffleBytes .., length_bitShuffle ..,
    length_bitUnshuffle ..⟩

/-! ## Claim theorems: header codec -/

/-- C6: header serialization and parsing round-trip — for every well-formed
header (`Version = 2`, u8 fields below 256, u32 fields below 2^32),
`ParseHeader (h.Bytes())` succeeds and returns `h` itself; all fields are
emitted little-endian at the specified offsets. -/
theorem claim6_header_roundtrip (h : Header)
    (hv : h.version = FormatVersion)
    (h1 : h.versionLZ < 256) (h2 : h.flags < 256) (h3 : h.typeSize < 256)
    (h4 : h.nbytesOrig < 4294967296) (h5 : h.blockSize < 4294967296)
    (h6 : h.nbytesComp < 4294967296) :
    ParseHeader (Header.bytes h) = .ok h := by
  obtain ⟨v, lz, fl, ts, no, bs, nc⟩ := h
  have hv' : v = 2 := hv
  subst hv'
  have h4' : no < 4294967296 := h4
  have h5' : bs < 4294967296 := h5
  have h6' : nc < 4294967296 := h6
  have key : ParseHeader (Header.bytes ⟨2, lz, fl, ts, no, bs, nc⟩) =
      .ok ⟨2, lz, fl, ts,
        no % 256 + no / 256 % 256 * 256 + no / 65536 % 256 * 65536 +
          no / 16777216 % 256 * 16777216,
        bs % 256 + bs / 256 % 256 * 256 + bs / 65536 % 256 * 65536 +
          bs / 16777216 % 256 * 16777216,
        nc % 256 + nc / 256 % 256 * 256 + nc / 65536 % 256 * 65536 +
          nc / 16777216 % 256 * 16777216⟩ := rfl
  rw [key]
  simp only [Except.ok.injEq, Header.mk.injEq, true_and, and_true]
  dsimp only at h1 h2 h3 h4 h5 h6 ⊢
  omega

theorem claim6_witness :
    ((70000:Nat) < 4294967296) ∧
    ParseHeader (Header.bytes ⟨2, 1, 3, 4, 70000, 70000, 4016⟩) =
      .ok ⟨2, 1, 3, 4, 70000, 70000, 4016⟩ :=
  ⟨by norm_num,
    claim6_header_roundtrip _ rfl (by norm_num) (by norm_num) (by norm_num)
      (by norm_num) (by norm_num) (by norm_num)⟩

/-! ## Helper facts about `ParseHeader` -/

theorem ParseHeader_ok (data : List Nat) (h : Header)
    (hp : ParseHeader data = .ok h) :
    HeaderSize ≤ data.length ∧ h.version = data.getD 0 0 ∧
      h.versionLZ = data.getD 1 0 ∧ h.flags = data.getD 2 0 ∧
      h.typeSize = data.getD 3 0 ∧ h.nbytesOrig = le32 data 4 ∧
      h.blockSize = le32 data 8 ∧ h.nbytesComp = le32 data 12 := by
  unfold ParseHeader at hp
  by_cases hc : data.length < HeaderSize
  · rw [if_pos hc] at hp
    exact absurd hp (by simp)
  · rw [if_neg hc] at hp
    dsimp only at hp
    by_cases hv : data.getD 0 0 ≠ FormatVersion
    · rw [if_pos hv] at hp
      exact absurd hp (by simp)
    · rw [if_neg hv] at hp
      cases hp
      exact ⟨by omega, rfl, rfl, rfl, rfl, rfl, rfl, rfl⟩

theorem ParseHeader_short (data : List Nat) (hc : data.length < HeaderSize) :
    ParseHeader data = .error .invalidHeader := by
  unfold ParseHeader
  rw [if_pos hc]

theorem ParseHeader_badVersion (data : List Nat) (hc : ¬ data.length < HeaderSize)
    (hv : data.getD 0 0 ≠ FormatVersion) :
    ParseHeader data = .error .invalidVersion := by
  unfold ParseHeader
  rw [if_neg hc]
  dsimp only
  rw [if_pos hv]

theorem ParseHeader_good (data : List Nat) (hc : ¬ data.length < HeaderSize)
    (hv : data.getD 0 0 = FormatVersion) :
    ParseHeader data = .ok
      ⟨data.getD 0 0, data.getD 1 0, data.getD 2 0, data.getD 3 0,
        le32 data 4, le32 data 8, le32 data 12⟩ := by
  unfold ParseHeader
  rw [if_neg hc]
  dsimp only
  rw [if_neg (by simpa using hv)]

/-! ## Claim theorems: decompression error paths -/

/-- A sample registered codec used in concrete witnesses: compresses and
decompresses by identity. -/
def idCodec : CodecImpl := ⟨fun d _ => .ok d, fun d _ => .ok d⟩

/-- A sample registry holding `idCodec` at codec id 1 (LZ4's identifier). -/
def reg0 : Nat → Option CodecImpl := fun i => if i = 1 then some idCodec else none

/-- C5: `Decompress` fails with `InvalidHeader` on fewer than 16 bytes,
with `InvalidVersion` whenever the version byte differs from 2, with
`InvalidData` whenever the declared `NBytesComp` exceeds the frame length
or is below 16, and — when decode succeeds but the unshuffled result's
length differs from `NBytesOrig` — with `SizeMismatch`. -/
theorem claim5_decompress_errors (reg : Nat → Option CodecImpl) :
    (∀ (data : List Nat) (typeSize : Nat), data.length < HeaderSize →
      DecompressWithSize reg data typeSize = .error .invalidHeader) ∧
    (∀ (data : List Nat) (typeSize : Nat), HeaderSize ≤ data.length →
      data.getD 0 0 ≠ FormatVersion →
      DecompressWithSize reg data typeSize = .error .invalidVersion) ∧
    (∀ (data : List Nat) (typeSize : Nat), HeaderSize ≤ data.length →
      data.getD 0 0 = FormatVersion →
      (data.length < le32 data 12 ∨ le32 data 12 < HeaderSize) →
      DecompressWithSize reg data typeSize = .error .invalidData) ∧
    (∀ (data : List Nat) (typeSize : Nat) (header : Header) (decompressed : List Nat),
      ParseHeader data = .ok header →
      header.nbytesComp ≤ data.length → HeaderSize ≤ header.nbytesComp →
      decodeStage reg header (framePayload data header.nbytesComp) = .ok decompressed →
      (unshuffleStage header typeSize decompressed).length ≠ header.nbytesOrig →
      DecompressWithSize reg data typeSize = .error .sizeMismatch) := by
  refine ⟨?_, ?_, ?_, ?_⟩
  · intro data ts h
    unfold DecompressWithSize
    rw [if_pos h]
  · intro data ts hlen hv
    unfold DecompressWithSize
    rw [if_neg (by omega)]
    unfold decompressBackend
    rw [ParseHeader_badVersion data (by omega) hv]
  · intro data ts hlen hv hbad
    unfold DecompressWithSize
    rw [if_neg (by omega)]
    unfold decompressBackend
    rw [ParseHeader_good data (by omega) hv]
    dsimp only
    rcases hbad with hbad | hbad
    · rw [if_pos hbad]
    · rw [if_neg (by omega), if_pos hbad]
  · intro data ts header decompressed hparse hle hge hdecode hlen'
    have hds : ¬ data.length < HeaderSize := by
      intro hc
      rw [ParseHeader_short data hc] at hparse
      exact absurd hparse (by simp)
    unfold DecompressWithSize
    rw [if_neg hds]
    unfold decompressBackend
    rw [hparse]
    dsimp only
    rw [if_neg (by omega), if_neg (by omega), hdecode]
    dsimp only
    rw [if_pos hlen']

theorem claim5_witness :
    DecompressWithSize reg0 [1, 2, 3] 0 = .error .invalidHeader ∧
    DecompressWithSize reg0 [9, 0, 0, 0, 0, 0, 0, 0, 0, 0, 0, 0, 0, 0, 0, 0] 0 =
      .error .invalidVersion ∧
    DecompressWithSize reg0 [2, 1, 0, 1, 0, 0, 0, 0, 0, 0, 0, 0, 0, 0, 0, 0] 0 =
      .error .invalidData ∧
    DecompressWithSize reg0 [2, 1, 2, 1, 5, 0, 0, 0, 0, 0, 0, 0, 16, 0, 0, 0] 0 =
      .error .sizeMismatch :=
  ⟨(claim5_decompress_errors reg0).1 [1, 2, 3] 0 (by decide),
   (claim5_decompress_errors reg0).2.1 _ 0 (by decide) (by decide),
   (claim5_decompress_errors reg0).2.2.1 _ 0 (by decide) (by decide)
     (Or.inr (by decide)),
   (claim5_decompress_errors reg0).2.2.2 _ 0 ⟨2, 1, 2, 1, 5, 0, 16⟩ [] rfl
     (by decide) (by decide) rfl (by decide)⟩

/-- C10: decompression depends only on the first `NBytesComp` bytes — for
every frame `F` whose declared `NBytesComp` satisfies
`16 ≤ NBytesComp ≤ len(F)` and every suffix `G`, decompressing `F ++ G`
gives exactly the same result (bytes or error) as decompressing `F`. -/
theorem claim10_prefix_only (reg : Nat → Option CodecImpl) (F G : List Nat)
    (typeSize : Nat) (hlen : HeaderSize ≤ F.length)
    (hnc1 : HeaderSize ≤ le32 F 12) (hnc2 : le32 F 12 ≤ F.length) :
    DecompressWithSize reg (F ++ G) typeSize = DecompressWithSize reg F typeSize := by
  have hHS : HeaderSize = 16 := rfl
  have hlapp : (F ++ G).length = F.length + G.length := List.length_append ..
  have hgetD : ∀ i, i < F.length → (F ++ G).getD i 0 = F.getD i 0 := fun i hi =>
    getD_append_left F G i hi
  have hle32 : ∀ off, off + 3 < F.length → le32 (F ++ G) off = le32 F off := by
    intro off hoff
    unfold le32
    rw [hgetD off (by omega), hgetD (off + 1) (by omega), hgetD (off + 2) (by omega),
      hgetD (off + 3) (by omega)]
  have hPH : ParseHeader (F ++ G) = ParseHeader F := by
    unfold ParseHeader
    rw [if_neg (show ¬ (F ++ G).length < HeaderSize by omega),
      if_neg (show ¬ F.length < HeaderSize by omega)]
    dsimp only
    rw [hgetD 0 (by omega), hgetD 1 (by omega), hgetD 2 (by omega), hgetD 3 (by omega),
      hle32 4 (by omega), hle32 8 (by omega), hle32 12 (by omega)]
  unfold DecompressWithSize
  rw [if_neg (by omega), if_neg (by omega)]
  unfold decompressBackend
  rw [hPH]
  rcases hPF : ParseHeader F with e | h
  · rfl
  · have hnc : h.nbytesComp = le32 F 12 := (ParseHeader_ok F h hPF).2.2.2.2.2.2.2
    dsimp only
    rw [if_neg (by omega), if_neg (by omega), if_neg (by omega), if_neg (by omega)]
    have hpay : framePayload (F ++ G) h.nbytesComp = framePayload F h.nbytesComp := by
      unfold framePayload
      rw [List.take_append_of_le_length (by omega)]
    rw [hpay]

theorem claim10_witness :
    DecompressWithSize reg0
        ([2, 1, 2, 1, 0, 0, 0, 0, 0, 0, 0, 0, 16, 0, 0, 0] ++ [7, 7, 7]) 0 =
      DecompressWithSize reg0 [2, 1, 2, 1, 0, 0, 0, 0, 0, 0, 0, 0, 16, 0, 0, 0] 0 :=
  claim10_prefix_only reg0 [2, 1, 2, 1, 0, 0, 0, 0, 0, 0, 0, 0, 16, 0, 0, 0] [7, 7, 7] 0
    (by decide) (by decide) (by decide)

/-! ## Claim theorems: compression pipeline -/

theorem if_true_eq {α : Sort u} [Decidable ((true : Bool) = true)] (t e : α) :
    (if (true : Bool) = true then t else e) = t := if_pos rfl

theorem if_false_eq {α : Sort u} [Decidable ((false : Bool) = true)] (t e : α) :
    (if (false : Bool) = true then t else e) = e := if_neg (by simp)

/-- C4: for every non-empty input on which the codec's compressor
succeeds, the memcpy decision is exactly
`useMemcpy = (len(compressed) ≥ len(data))`, and whenever the `MEMCPY`
flag is set in the produced frame the payload is the original input bytes
(not the shuffled bytes) and the header satisfies
`NBytesComp = 16 + NBytesOrig` with `NBytesOrig = len(data)`. -/
theorem claim4_memcpy_coherence (reg : Nat → Option CodecImpl) (data : List Nat)
    (opts : Options) (c : CodecImpl) (compressed0 : List Nat)
    (hne : data ≠ [])
    (hreg : reg opts.codec = some c)
    (hcomp : c.comp (shuffleStage data opts) opts.level = .ok compressed0)
    (hfit : HeaderSize + data.length < 4294967296) :
    ∃ header payload,
      compressBackend reg data opts = .ok (Header.bytes header ++ payload) ∧
      ((header.flags &&& flagMemcpy ≠ 0) ↔ data.length ≤ compressed0.length) ∧
      ((header.flags &&& flagMemcpy ≠ 0) →
        payload = data ∧ header.nbytesComp = HeaderSize + header.nbytesOrig ∧
        header.nbytesOrig = data.length) := by
  unfold compressBackend
  rw [hreg]
  dsimp only
  rw [hcomp]
  dsimp only
  refine ⟨_, _, rfl, ?_, ?_⟩
  · by_cases hm : data.length ≤ compressed0.length
    · have hd : decide (compressed0.length ≥ data.length) = true := decide_eq_true hm
      simp only [hd, if_true_eq, if_true]
      constructor
      · intro _; exact hm
      · intro _
        by_cases hs1 : opts.shuffle = Shuffle1
        · rw [if_pos hs1]; decide
        · rw [if_neg hs1]
          by_cases hs2 : opts.shuffle = BitShuffleMode
          · rw [if_pos hs2]; decide
          · rw [if_neg hs2]; decide
    · have hd : decide (compressed0.length ≥ data.length) = false :=
        decide_eq_false hm
      simp only [hd, if_false_eq, if_false]
      constructor
      · intro hbit
        exfalso
        apply hbit
        by_cases hs1 : opts.shuffle = Shuffle1
        · rw [if_pos hs1]; decide
        · rw [if_neg hs1]
          by_cases hs2 : opts.shuffle = BitShuffleMode
          · rw [if_pos hs2]; decide
          · rw [if_neg hs2]; decide
      · intro hm'; exact absurd hm' hm
  · intro hbit
    by_cases hm : data.length ≤ compressed0.length
    · have hd : decide (compressed0.length ≥ data.length) = true := decide_eq_true hm
      simp only [hd, if_true_eq, if_true]
      refine ⟨trivial, ?_, ?_⟩
      · dsimp only
        have hHS : HeaderSize = 16 := rfl
        omega
      · dsimp only
        have hHS : HeaderSize = 16 := rfl
        omega
    · exfalso
      have hd : decide (compressed0.length ≥ data.length) = false :=
        decide_eq_false hm
      simp only [hd, if_false_eq, if_false] at hbit
      apply hbit
      by_cases hs1 : opts.shuffle = Shuffle1
      · rw [if_pos hs1]; decide
      · rw [if_neg hs1]
        by_cases hs2 : opts.shuffle = BitShuffleMode
        · rw [if_pos hs2]; decide
        · rw [if_neg hs2]; decide

theorem claim4_witness :
    ∃ header payload,
      compressBackend reg0 [1, 2, 3] ⟨1, 5, 0, 1, 0⟩ =
        .ok (Header.bytes header ++ payload) ∧
      ((header.flags &&& flagMemcpy ≠ 0) ↔
        ([1, 2, 3] : List Nat).length ≤ ([1, 2, 3] : List Nat).length) ∧
      ((header.flags &&& flagMemcpy ≠ 0) →
        payload = [1, 2, 3] ∧
        header.nbytesComp = HeaderSize + header.nbytesOrig ∧
        header.nbytesOrig = ([1, 2, 3] : List Nat).length) :=
  claim4_memcpy_coherence reg0 [1, 2, 3] ⟨1, 5, 0, 1, 0⟩ idCodec [1, 2, 3]
    (by decide) rfl rfl (by decide)

/-- C7 (code bug): `Compress` does NOT fail with `DataTooLarge` when the
input exceeds the u32 range — `ErrDataTooLarge` is declared in codec.go
but never returned; `compressBackend` silently truncates `NBytesOrig`,
`BlockSize` and `NBytesComp` through the `uint32(...)` conversions.  At
input length 2^32 the produced frame declares `NBytesOrig = 0` and
`NBytesComp = 16`. -/
theorem compressBackend_memcpy_shape (reg : Nat → Option CodecImpl) (data : List Nat)
    (opts : Options) (c : CodecImpl) (compressed0 : List Nat)
    (hreg : reg opts.codec = some c)
    (hcomp : c.comp (shuffleStage data opts) opts.level = .ok compressed0)
    (hm : data.length ≤ compressed0.length) :
    compressBackend reg data opts = .ok (Header.bytes
      ⟨FormatVersion, opts.codec % 256,
        (if opts.shuffle = Shuffle1 then flagShuffle
          else if opts.shuffle = BitShuffleMode then flagBitShuffle else 0) ||| flagMemcpy,
        opts.typeSize % 256, data.length % 4294967296, data.length % 4294967296,
        (HeaderSize + data.length) % 4294967296⟩ ++ data) := by
  unfold compressBackend
  rw [hreg]
  dsimp only
  rw [hcomp]
  dsimp only
  rw [show decide (compressed0.length ≥ data.length) = true from decide_eq_true hm]
  simp only [if_true_eq, if_true]

theorem claim7_compress_truncates :
    CompressWithOptions reg0 (List.replicate 4294967296 0) ⟨1, 5, 0, 1, 0⟩ =
      .ok (Header.bytes ⟨2, 1, 2, 1, 0, 0, 16⟩ ++ List.replicate 4294967296 0) := by
  have hlen : (List.replicate 4294967296 (0 : Nat)).length = 4294967296 :=
    List.length_replicate ..
  have e1 : CompressWithOptions reg0 (List.replicate 4294967296 0) ⟨1, 5, 0, 1, 0⟩ =
      if (List.replicate 4294967296 (0 : Nat)).length = 0 then .error .invalidData
      else compressBackend reg0 (List.replicate 4294967296 0) ⟨1, 5, 0, 1, 0⟩ := rfl
  rw [e1, if_neg (by rw [hlen]; norm_num)]
  rw [compressBackend_memcpy_shape reg0 (List.replicate 4294967296 0) ⟨1, 5, 0, 1, 0⟩
    idCodec (List.replicate 4294967296 0) rfl rfl (le_refl _)]
  rw [hlen]
  exact congrArg Except.ok
    (congrArg (fun l => l ++ List.replicate 4294967296 0)
      (congrArg Header.bytes (by decide)))

/-- C8 counterexample: the claim "`Decompress(bytes, expected_size)`
returns exactly `expected_size` bytes when the input is a well-formed
codec blob" is false for the lz4 and zlib adapters.  Instantiating the
abstract library with a decoder that produces the single byte `7` (a
well-formed blob for such a decoder), the adapters return a 1-byte result
with no error although `expected_size = 5`. -/
theorem claim8_counterexample :
    lz4Decompress (fun _ _ => .ok [7]) [] 5 = .ok [7] ∧
    zlibDecompress (fun _ => .ok [7]) [] 5 = .ok [7] ∧
    ([7] : List Nat).length ≠ 5 := by
  refine ⟨rfl, rfl, by decide⟩

/-- C8 (amended): the lz4 and zlib adapters return at most
`expected_size` bytes; when the blob decodes to fewer bytes, they return
the shorter decoded prefix with no error (the exact-length check is
enforced later by the pipeline's `SizeMismatch` verification). -/
theorem claim8_decompress_at_most (uncompressBlock : List Nat → Nat → Except Unit (List Nat))
    (inflate : List Nat → Except Unit (List Nat)) (data : List Nat) (expectedSize : Nat)
    (out1 out2 : List Nat) :
    (lz4Decompress uncompressBlock data expectedSize = .ok out1 →
      out1.length ≤ expectedSize) ∧
    (zlibDecompress inflate data expectedSize = .ok out2 →
      out2.length ≤ expectedSize) := by
  constructor
  · intro h
    unfold lz4Decompress at h
    rcases hu : uncompressBlock data expectedSize with e | written
    · rw [hu] at h
      exact absurd h (by simp)
    · rw [hu] at h
      dsimp only at h
      have : written.take expectedSize = out1 := by
        have := h
        simpa using this
      rw [← this]
      simpa using List.length_take_le ..
  · intro h
    unfold zlibDecompress at h
    rcases hu : inflate data with e | stream
    · rw [hu] at h
      exact absurd h (by simp)
    · rw [hu] at h
      dsimp only at h
      have : stream.take expectedSize = out2 := by
        have := h
        simpa using this
      rw [← this]
      simpa using List.length_take_le ..

theorem claim8_witness :
    ([7] : List Nat).length ≤ 5 ∧ ([7] : List Nat).length ≤ 5 :=
  ⟨(claim8_decompress_at_most (fun _ _ => .ok [7]) (fun _ => .ok [7]) [] 5 [7] [7]).1 rfl,
   (claim8_decompress_at_most (fun _ _ => .ok [7]) (fun _ => .ok [7]) [] 5 [7] [7]).2 rfl⟩
